import Mathlib

/-!
Verification of the resource monitoring and analytics subsystem of the
ReadingRabbit repository (`src/resource_monitor.py`).

The Python module is shallowly embedded below:

* percentages and clock instants are modelled as `Rat` (Python floats used
  only through comparison, subtraction, sum and division);
* the NaN sentinel that `ResourceMonitor.run` stores for a missing GPU/VRAM
  reading, and that `_is_nan` tests for, is modelled as `Option Rat` being
  `none` (a present reading is `some v`);
* the external world of a run (the `stop_event` / `pause_event` flags, the
  psutil / GPUtil readings, the monotonic clock and the wall clock, and
  whether a caller-supplied callback raises) is one `TickEnv` record per
  loop iteration; a run is driven by a finite schedule `List TickEnv`,
  the schedule running out being the stop flag staying set;
* Python exceptions are modelled with `Except PyErr`; `try`/`except`
  blocks of the source are modelled at the site where the source has them;
* file output (CSV raw log, JSON summary, alert-history CSV) is not
  modelled: no claim under scrutiny depends on the file contents, only on
  the in-memory state (`samples`, `summary_text`, `summary_data`,
  `alert_history`, `_last_alerts`);
* ghost instrumentation fields (`update_calls`, `alert_calls`,
  `alert_times`, `sleeps`, `finalise_count`) record, respectively, the
  invocations of the update callback, the invocations of the alert
  callback, the monotonic instant of every emitted alert, the number of
  `time.sleep(self.interval)` calls, and the number of invocations of
  `_finalise_summary`; they mirror observable events of the source and are
  written exactly where the source performs the corresponding action.
-/

namespace ReadingRabbit

/-- The four monitored metrics, the keys of the `metrics` dict built in
`ResourceMonitor._check_alerts` and the tuple iterated in
`_finalise_summary`. -/
inductive Metric
  | cpu
  | ram
  | gpu
  | vram
deriving DecidableEq, Repr

/-- One recorded observation, as appended to `self.samples`: `cpu` and `ram`
are always present; `gpu` and `vram` are `none` when the source stores the
`float("nan")` sentinel. -/
structure Sample where
  cpu : Rat
  ram : Rat
  gpu : Option Rat
  vram : Option Rat
deriving DecidableEq, Repr

/-- The value a stored sample holds for a metric, `none` exactly when
`_is_nan(sample[metric])` holds in the source. -/
def Sample.get (s : Sample) : Metric → Option Rat
  | .cpu => some s.cpu
  | .ram => some s.ram
  | .gpu => s.gpu
  | .vram => s.vram

/-- A GPU object as returned by `GPUtil.getGPUs()`: the two fields
`get_gpu_usage` reads. -/
structure Gpu where
  load : Rat
  memoryUtil : Rat
deriving DecidableEq, Repr

/-- Python exceptions distinguished by the source: `IndexError` (caught by
name in `get_gpu_usage`), an arbitrary exception from `GPUtil.getGPUs()`,
and an exception raised by a caller-supplied callback. -/
inductive PyErr
  | indexError
  | generalError
  | callbackError
deriving DecidableEq, Repr

/-- The effective position of Python list subscription: a negative index
counts from the end. -/
def pyIndex {α : Type} (l : List α) (i : Int) : Int :=
  if i < 0 then i + l.length else i

/-- Python list subscription `l[i]`: an index outside `[-len(l), len(l))`
raises `IndexError`. -/
def pySubscript {α : Type} (l : List α) (i : Int) : Except PyErr α :=
  if h : 0 ≤ pyIndex l i ∧ (pyIndex l i).toNat < l.length then
    Except.ok (l.get ⟨(pyIndex l i).toNat, h.2⟩)
  else Except.error PyErr.indexError

/-- The GPU selection of `get_gpu_usage`:
`try: gpu = gpus[index] except IndexError: gpu = gpus[0]` — only
`IndexError` is caught, and the handler retries at index `0`. -/
def selectGpu (gpus : List Gpu) (index : Int) : Except PyErr Gpu :=
  match pySubscript gpus index with
  | Except.error PyErr.indexError => pySubscript gpus 0
  | r => r

/-- Embedding of `get_gpu_usage(gpu_index)`.  `gputilLoaded` is whether the
`import GPUtil` at module load succeeded (`GPUtil is not None`);
`getGPUs` is the outcome of the `GPUtil.getGPUs()` call, whose exceptions
the source catches wholesale; `gpuIndex` is the `gpu_index` argument
(`none` means the Python `None` default, replaced by `0`).  The
`except IndexError` of the source catches only `PyErr.indexError` and
retries at index `0`. -/
def get_gpu_usage (gputilLoaded : Bool) (getGPUs : Except PyErr (List Gpu))
    (gpuIndex : Option Int) : Except PyErr (Option Rat × Option Rat) :=
  if gputilLoaded = false then Except.ok (none, none)
  else
    match getGPUs with
    | Except.error _ => Except.ok (none, none)
    | Except.ok gpus =>
      if gpus.isEmpty then Except.ok (none, none)
      else
        match selectGpu gpus (gpuIndex.getD 0) with
        | Except.error e => Except.error e
        | Except.ok gpu => Except.ok (some (gpu.load * 100), some (gpu.memoryUtil * 100))

/-- The per-metric aggregate of `_finalise_summary`: the
`{"average": ..., "maximum": ..., "minimum": ...}` dict. -/
structure Stats where
  average : Rat
  maximum : Rat
  minimum : Rat
deriving DecidableEq, Repr

/-- The environment one loop iteration of `ResourceMonitor.run` observes:
the two signal flags as read at the top of the iteration, the psutil /
GPUtil readings the tick would take, the `time.monotonic()` value, the
wall-clock ISO string `datetime.now(timezone.utc).isoformat()` used for
alert-history rows, and whether the caller-supplied callbacks raise. -/
structure TickEnv where
  stop : Bool
  pause : Bool
  cpu : Rat
  ram : Rat
  gpu : Option Rat
  vram : Option Rat
  now : Rat
  wall : String
  updateRaises : Bool
  alertRaises : Metric → Bool

/-- The mutable state of one `ResourceMonitor` instance, restricted to the
fields the claims are about, plus ghost instrumentation (see the module
comment). -/
structure MonitorState where
  interval : Rat
  alert_thresholds : List (Metric × Rat)
  alert_callback : Bool
  alert_cooldown : Rat
  last_alerts : Metric → Option Rat
  trend_window : Rat
  samples : List Sample
  sample_times : List Rat
  summary_data : Option (List (Metric × Stats))
  summary_text : Option String
  alert_history : List (String × Metric × Rat)
  update_calls : List (Rat × Option Rat × Option Rat × Rat)
  alert_calls : List (Metric × Rat)
  alert_times : List (Metric × Rat)
  sleeps : Nat
  finalise_count : Nat

/-- Embedding of `ResourceMonitor.__init__`.  The threshold dict of the
source lower-cases its string keys and drops `None` values; the model
receives the resulting metric-keyed association list directly.  The
clamps `max(0.1, interval)`, `max(0.0, alert_cooldown)` and
`max(10.0, trend_window)` are those of the source. -/
def mkMonitor (interval : Rat) (thresholds : List (Metric × Rat))
    (callback : Bool) (cooldown : Rat) (trendWindow : Rat) : MonitorState where
  interval := max (1/10 : Rat) interval
  alert_thresholds := thresholds
  alert_callback := callback
  alert_cooldown := max 0 cooldown
  last_alerts := fun _ => none
  trend_window := max 10 trendWindow
  samples := []
  sample_times := []
  summary_data := none
  summary_text := none
  alert_history := []
  update_calls := []
  alert_calls := []
  alert_times := []
  sleeps := 0
  finalise_count := 0

/-- The `metrics` dict built at the top of `_check_alerts` from the tick's
readings. -/
def tickVals (e : TickEnv) : Metric → Option Rat
  | .cpu => some e.cpu
  | .ram => some e.ram
  | .gpu => e.gpu
  | .vram => e.vram

/-- The cooldown test of `_check_alerts`: fire when there is no prior alert
for the metric, or when `now - last < cooldown` fails. -/
def fires (cooldown now : Rat) (lastA : Option Rat) : Bool :=
  match lastA with
  | none => true
  | some last => !(decide (now - last < cooldown))

/-- The alert-evaluation state threaded through the `for` loop of
`_check_alerts`: `_last_alerts`, `alert_history`, and the ghost records of
callback invocations (`calls`) and of the monotonic instant of each
emitted alert (`times`). -/
structure AlertCtx where
  lastA : Metric → Option Rat
  history : List (String × Metric × Rat)
  calls : List (Metric × Rat)
  times : List (Metric × Rat)

/-- Pointwise update of `_last_alerts` at one key. -/
def updateLA (f : Metric → Option Rat) (k : Metric) (v : Rat) :
    Metric → Option Rat :=
  fun m => if m = k then some v else f m

/-- The `for key, threshold in self.alert_thresholds.items()` loop of
`_check_alerts`.  A metric missing from the readings is skipped
(`if value is None: continue`); a firing metric first has
`_last_alerts[key]` set to `now` and the event appended to
`alert_history`, and only then is the alert callback invoked, inside
`try`/`except` whose handler discards every exception — so a raising
callback (`raises key = true`) leaves no trace beyond the ghost `calls`
entry. -/
def checkAlertsGo (cooldown now : Rat) (wall : String)
    (vals : Metric → Option Rat) (raises : Metric → Bool) :
    List (Metric × Rat) → AlertCtx → AlertCtx
  | [], c => c
  | (key, threshold) :: rest, c =>
    match vals key with
    | none => checkAlertsGo cooldown now wall vals raises rest c
    | some value =>
      if threshold ≤ value then
        if fires cooldown now (c.lastA key) then
          let c1 : AlertCtx :=
            { lastA := updateLA c.lastA key now
              history := c.history ++ [(wall, key, value)]
              calls := c.calls ++ [(key, value)]
              times := c.times ++ [(key, now)] }
          let _attempt : Except PyErr Unit :=
            if raises key then Except.error PyErr.callbackError else Except.ok ()
          checkAlertsGo cooldown now wall vals raises rest c1
        else checkAlertsGo cooldown now wall vals raises rest c
      else checkAlertsGo cooldown now wall vals raises rest c

/-- Embedding of `ResourceMonitor._check_alerts`: the early return when no
threshold or no callback is configured, then the per-metric loop. -/
def checkAlerts (e : TickEnv) (s : MonitorState) : MonitorState :=
  if s.alert_thresholds.isEmpty || !s.alert_callback then s
  else
    let c := checkAlertsGo s.alert_cooldown e.now e.wall (tickVals e)
      e.alertRaises s.alert_thresholds
      ⟨s.last_alerts, s.alert_history, s.alert_calls, s.alert_times⟩
    { s with
      last_alerts := c.lastA
      alert_history := c.history
      alert_calls := c.calls
      alert_times := c.times }

/-- The alert events appended to the history by one `_check_alerts` call. -/
def emittedIn (e : TickEnv) (s : MonitorState) : List (String × Metric × Rat) :=
  (checkAlerts e s).alert_history.drop s.alert_history.length

/-- One unpaused, unstopped iteration of the `while` loop of
`ResourceMonitor.run`: take the readings, append the sample (NaN sentinel
for a missing GPU value) and its monotonic timestamp, invoke the update
callback (whose exception, if any, propagates and aborts the loop), run
`_check_alerts`, then sleep one interval. -/
def tick (e : TickEnv) (s : MonitorState) : MonitorState × Option PyErr :=
  let sample : Sample := { cpu := e.cpu, ram := e.ram, gpu := e.gpu, vram := e.vram }
  let s1 := { s with
    samples := s.samples ++ [sample]
    sample_times := s.sample_times ++ [e.now] }
  let s2 := { s1 with update_calls := s1.update_calls ++ [(e.cpu, e.gpu, e.vram, e.ram)] }
  if e.updateRaises then (s2, some PyErr.callbackError)
  else
    let s3 := checkAlerts e s2
    ({ s3 with sleeps := s3.sleeps + 1 }, none)

/-- The `while not self.stop_event.is_set()` loop of `ResourceMonitor.run`,
driven by a finite schedule of environments: an exhausted schedule stands
for the stop flag being set from then on.  A set pause flag makes the
iteration only sleep one interval and re-check; an exception escaping a
tick ends the loop abnormally. -/
def runLoop : List TickEnv → MonitorState → MonitorState × Option PyErr
  | [], s => (s, none)
  | e :: rest, s =>
    if e.stop then (s, none)
    else if e.pause then runLoop rest { s with sleeps := s.sleeps + 1 }
    else
      match tick e s with
      | (s1, none) => runLoop rest s1
      | (s1, some err) => (s1, some err)

/-- The metric tuple `("cpu", "ram", "gpu", "vram")` iterated in
`_finalise_summary`. -/
def allMetrics : List Metric := [Metric.cpu, Metric.ram, Metric.gpu, Metric.vram]

/-- The list comprehension
`[sample[metric] for sample in self.samples if not _is_nan(sample[metric])]`. -/
def presentVals (samples : List Sample) (m : Metric) : List Rat :=
  samples.filterMap fun s => s.get m

/-- Per-metric aggregate over the present values, when there are any:
`statistics.fmean` (the exact sum divided by the length), `max`, `min`. -/
def statsAt (samples : List Sample) (m : Metric) : Option Stats :=
  match presentVals samples m with
  | [] => none
  | v :: vs =>
    some
      { average := (v :: vs).sum / ((v :: vs).length : Rat)
        maximum := vs.foldl max v
        minimum := vs.foldl min v }

/-- The `summary` dict of `_finalise_summary`, in the iteration order of the
`metrics` tuple; a metric with no present value is skipped. -/
def summaryOf (samples : List Sample) : List (Metric × Stats) :=
  allMetrics.filterMap fun m => (statsAt samples m).map fun st => (m, st)

/-- The `cutoff` of `_finalise_summary`: the last sample time minus the
trend window, or `0.0` when there are no sample times. -/
def cutoffOf (times : List Rat) (window : Rat) : Rat :=
  match times with
  | [] => 0
  | t :: ts => ts.getLastD t - window

/-- The `window_values` comprehension of `_finalise_summary`: present
values of the samples whose timestamp is at least the cutoff, walking
`zip(self.samples, self.sample_times)`. -/
def windowValsOf (samples : List Sample) (times : List Rat) (cutoff : Rat)
    (m : Metric) : List Rat :=
  (samples.zip times).filterMap fun p =>
    if cutoff ≤ p.2 then p.1.get m else none

/-- The per-metric trend delta `window_values[-1] - window_values[0]`, when
the window holds at least one present value. -/
def trendAt (samples : List Sample) (times : List Rat) (window : Rat)
    (m : Metric) : Option Rat :=
  match windowValsOf samples times (cutoffOf times window) m with
  | [] => none
  | v :: vs => some (vs.getLastD v - v)

/-- The `trend_summary` dict of `_finalise_summary`. -/
def trendOf (samples : List Sample) (times : List Rat) (window : Rat) :
    List (Metric × Rat) :=
  allMetrics.filterMap fun m => (trendAt samples times window m).map fun d => (m, d)

/-- Dict lookup `d.get(metric)` on a metric-keyed association list. -/
def lookupMetric (k : Metric) (l : List (Metric × Rat)) : Option Rat :=
  (l.find? fun p => decide (p.1 = k)).map fun p => p.2

/-- The `metric.upper()` label used in the rendered summary lines. -/
def metricName : Metric → String
  | .cpu => "CPU"
  | .ram => "RAM"
  | .gpu => "GPU"
  | .vram => "VRAM"

/-- Rendering of a value with one decimal digit, the model of the `:.1f`
format specifier (rounding to the nearest tenth). -/
def fmt1 (q : Rat) : String :=
  let n : Int := round (q * 10)
  (if n < 0 then "-" else "") ++ toString (n.natAbs / 10) ++ "." ++ toString (n.natAbs % 10)

/-- The trend suffix of a summary line: empty when the metric has no trend,
otherwise the direction decided by the sign of the delta and its absolute
value. -/
def trendText (t : Option Rat) : String :=
  match t with
  | none => ""
  | some d =>
    let dir := if 0 < d then "increased" else if d < 0 then "decreased" else "stayed level"
    " (trend " ++ dir ++ " by " ++ fmt1 |d| ++ "%)"

/-- The lines of the rendered summary: the header, one line per metric
present in the summary, and the alert-count line. -/
def summaryLines (sm : List (Metric × Stats)) (tr : List (Metric × Rat))
    (history : List (String × Metric × Rat)) : List String :=
  "Resource Summary:" ::
    (sm.map fun p =>
      "- " ++ metricName p.1 ++ ": avg " ++ fmt1 p.2.average ++ "% | max "
        ++ fmt1 p.2.maximum ++ "% | min " ++ fmt1 p.2.minimum ++ "%"
        ++ trendText (lookupMetric p.1 tr))
    ++ [match history with
        | [] => "- Alerts triggered: none"
        | _ => "- Alerts triggered: " ++ toString history.length ++ " (see alert log)"]

/-- Embedding of `ResourceMonitor._finalise_summary`.  The ghost
`finalise_count` is bumped on entry (the invocation happened); with no
recorded samples the method returns before touching `summary_data` or
`summary_text`; otherwise both are computed from the recorded history.
The JSON summary file and the alert-history CSV the source then writes
best-effort are not modelled. -/
def finaliseSummary (s : MonitorState) : MonitorState :=
  let s0 := { s with finalise_count := s.finalise_count + 1 }
  match s0.samples with
  | [] => s0
  | _ :: _ =>
    let sm := summaryOf s0.samples
    let tr := trendOf s0.samples s0.sample_times s0.trend_window
    { s0 with
      summary_data := some sm
      summary_text := some (String.intercalate "\n" (summaryLines sm tr s0.alert_history)) }

/-- Embedding of `ResourceMonitor.run`: the guarded loop, then the
`finally` clause that always runs `_finalise_summary` exactly once,
whether the loop ended by the stop signal, by schedule exhaustion, or by
an exception escaping a tick (the exception is re-raised after the
`finally` clause, hence the error component is preserved). -/
def runMonitor (env : List TickEnv) (s : MonitorState) :
    MonitorState × Option PyErr :=
  let r := runLoop env s
  (finaliseSummary r.1, r.2)

/-! ### Lemmas about Python list subscription -/

theorem pySubscript_error_eq {α : Type} {l : List α} {i : Int} {e : PyErr}
    (h : pySubscript l i = Except.error e) : e = PyErr.indexError := by
  unfold pySubscript at h
  split at h
  · exact absurd h (by simp)
  · simpa using h.symm

theorem pyIndex_spec {α : Type} (l : List α) (i : Int) :
    pyIndex l i = if i < 0 then i + l.length else i := rfl

theorem pySubscript_zero {α : Type} (l : List α) (h : l ≠ []) :
    pySubscript l 0 = Except.ok (l.head h) := by
  match l with
  | a :: rest =>
    unfold pySubscript
    have hidx : pyIndex (a :: rest) 0 = 0 := by simp [pyIndex]
    simp [hidx]

theorem pySubscript_out {α : Type} (l : List α) (i : Int)
    (h : (l.length : Int) ≤ i ∨ i + l.length < 0) :
    pySubscript l i = Except.error PyErr.indexError := by
  unfold pySubscript
  split
  · next hin =>
    exfalso
    rcases hin with ⟨h0, hlt⟩
    rw [pyIndex_spec] at h0 hlt
    by_cases hneg : i < 0
    · rw [if_pos hneg] at h0 hlt
      omega
    · rw [if_neg hneg] at h0 hlt
      omega
  · rfl

theorem selectGpu_isOk (gpus : List Gpu) (h : gpus ≠ []) (i : Int) :
    ∃ g, selectGpu gpus i = Except.ok g := by
  cases hps : pySubscript gpus i with
  | ok g =>
    exact ⟨g, by simp [selectGpu, hps]⟩
  | error e =>
    have he := pySubscript_error_eq hps
    subst he
    exact ⟨gpus.head h, by simp [selectGpu, hps, pySubscript_zero gpus h]⟩

theorem selectGpu_out (gpus : List Gpu) (h : gpus ≠ []) (i : Int)
    (hout : (gpus.length : Int) ≤ i ∨ i + gpus.length < 0) :
    selectGpu gpus i = Except.ok (gpus.head h) := by
  simp [selectGpu, pySubscript_out gpus i hout, pySubscript_zero gpus h]

/-- C9: the GPU sampler never raises for any integer preferred GPU index —
whatever the import outcome, the `getGPUs` outcome and the configured
index, `get_gpu_usage` returns a value (absent/absent on any query
failure); and when a preferred index is out of range for the available
GPU list (`len(gpus) <= i` or `i + len(gpus) < 0`, the condition under
which Python list subscription fails), it falls back to device 0. -/
theorem claim_C9_gpu_sampler_total_and_fallback :
    (∀ (loaded : Bool) (res : Except PyErr (List Gpu)) (idx : Option Int),
      ∃ r, get_gpu_usage loaded res idx = Except.ok r) ∧
    (∀ (gpus : List Gpu) (i : Int) (h : gpus ≠ []),
      (gpus.length : Int) ≤ i ∨ i + gpus.length < 0 →
      get_gpu_usage true (Except.ok gpus) (some i) =
        Except.ok (some ((gpus.head h).load * 100),
          some ((gpus.head h).memoryUtil * 100))) := by
  constructor
  · intro loaded res idx
    cases loaded with
    | false => exact ⟨(none, none), rfl⟩
    | true =>
      cases res with
      | error e => exact ⟨(none, none), rfl⟩
      | ok gpus =>
        by_cases hemp : gpus.isEmpty
        · exact ⟨(none, none), by simp [get_gpu_usage, hemp]⟩
        · have hne : gpus ≠ [] := by
            intro hc
            rw [hc] at hemp
            exact hemp rfl
          obtain ⟨g, hg⟩ := selectGpu_isOk gpus hne (idx.getD 0)
          exact ⟨(some (g.load * 100), some (g.memoryUtil * 100)),
            by simp [get_gpu_usage, hemp, hg]⟩
  · intro gpus i h hout
    have hemp : gpus.isEmpty = false := by
      cases gpus with
      | nil => exact absurd rfl h
      | cons a rest => rfl
    simp [get_gpu_usage, hemp, selectGpu_out gpus h i hout]

/-- Witness for C9: with two distinct GPUs available and preferred index 7
(out of range), the sampler returns device 0's percentages. -/
theorem claim_C9_witness :
    (⟨⟨1/2, 1/4⟩, ⟨9/10, 3/5⟩⟩ : Gpu × Gpu).1.load = 1/2 ∧
    get_gpu_usage true (Except.ok [⟨1/2, 1/4⟩, ⟨9/10, 3/5⟩]) (some 7) =
      Except.ok (some 50, some 25) := by
  constructor
  · rfl
  · have := claim_C9_gpu_sampler_total_and_fallback.2
      [⟨1/2, 1/4⟩, ⟨9/10, 3/5⟩] 7 (by decide) (by decide)
    rw [this]
    norm_num

/-! ### Finalisation reads only the recorded history -/

theorem finalise_preserves (s : MonitorState) :
    (finaliseSummary s).samples = s.samples ∧
    (finaliseSummary s).sample_times = s.sample_times ∧
    (finaliseSummary s).trend_window = s.trend_window ∧
    (finaliseSummary s).alert_history = s.alert_history := by
  unfold finaliseSummary
  cases hs : s.samples <;> simp [hs]

theorem finalise_count_succ (s : MonitorState) :
    (finaliseSummary s).finalise_count = s.finalise_count + 1 := by
  unfold finaliseSummary
  cases hs : s.samples <;> simp [hs]

theorem finalise_text_of_ne (s : MonitorState) (hs : s.samples ≠ []) :
    (finaliseSummary s).summary_text =
      some (String.intercalate "\n"
        (summaryLines (summaryOf s.samples)
          (trendOf s.samples s.sample_times s.trend_window) s.alert_history)) ∧
    (finaliseSummary s).summary_data = some (summaryOf s.samples) := by
  unfold finaliseSummary
  cases hc : s.samples with
  | nil => exact absurd hc hs
  | cons a rest => simp [hc]

theorem finalise_text_of_empty (s : MonitorState) (hs : s.samples = []) :
    (finaliseSummary s).summary_text = s.summary_text ∧
    (finaliseSummary s).summary_data = s.summary_data := by
  unfold finaliseSummary
  simp [hs]

/-- C4: finalisation is a pure, deterministic derivation of the recorded
history — since `finaliseSummary` leaves the sample history, the sample
times, the trend window and the alert history untouched, running it a
second time recomputes byte-identical summary text (and identical summary
data). -/
theorem claim_C4_finalise_idempotent (s : MonitorState) :
    (finaliseSummary (finaliseSummary s)).summary_text =
      (finaliseSummary s).summary_text ∧
    (finaliseSummary (finaliseSummary s)).summary_data =
      (finaliseSummary s).summary_data := by
  obtain ⟨hsam, htim, hwin, hhist⟩ := finalise_preserves s
  cases hs : s.samples with
  | nil =>
    have h1 := finalise_text_of_empty s hs
    have h2 := finalise_text_of_empty (finaliseSummary s) (by rw [hsam, hs])
    exact ⟨by rw [h2.1, h1.1], by rw [h2.2, h1.2]⟩
  | cons a rest =>
    have hne : s.samples ≠ [] := by rw [hs]; exact List.cons_ne_nil a rest
    have h1 := finalise_text_of_ne s hne
    have h2 := finalise_text_of_ne (finaliseSummary s) (by rw [hsam]; exact hne)
    rw [hsam, htim, hwin, hhist] at h2
    exact ⟨by rw [h2.1, h1.1], by rw [h2.2, h1.2]⟩

/-! ### The running maximum and minimum of a value list -/

theorem le_foldl_max (vs : List Rat) (v : Rat) : v ≤ vs.foldl max v := by
  induction vs generalizing v with
  | nil => exact le_refl v
  | cons w ws ih =>
    rw [List.foldl_cons]
    exact le_trans (le_max_left v w) (ih (max v w))

theorem foldl_max_mem (vs : List Rat) (v : Rat) : vs.foldl max v ∈ v :: vs := by
  induction vs generalizing v with
  | nil => simp
  | cons w ws ih =>
    rw [List.foldl_cons]
    rcases List.mem_cons.mp (ih (max v w)) with h | h
    · rcases max_choice v w with hm | hm
      · rw [h, hm]; exact List.mem_cons_self _ _
      · rw [h, hm]; exact List.mem_cons_of_mem _ (List.mem_cons_self _ _)
    · exact List.mem_cons_of_mem _ (List.mem_cons_of_mem _ h)

theorem foldl_max_ge (vs : List Rat) (v x : Rat) (hx : x ∈ v :: vs) :
    x ≤ vs.foldl max v := by
  induction vs generalizing v with
  | nil =>
    rw [List.mem_singleton] at hx
    exact le_of_eq hx
  | cons w ws ih =>
    rw [List.foldl_cons]
    rcases List.mem_cons.mp hx with h | h
    · rw [h]; exact le_trans (le_max_left v w) (le_foldl_max ws (max v w))
    · rcases List.mem_cons.mp h with h2 | h2
      · rw [h2]; exact le_trans (le_max_right v w) (le_foldl_max ws (max v w))
      · exact ih (max v w) (List.mem_cons_of_mem _ h2)

theorem foldl_min_le (vs : List Rat) (v : Rat) : vs.foldl min v ≤ v := by
  induction vs generalizing v with
  | nil => exact le_refl v
  | cons w ws ih =>
    rw [List.foldl_cons]
    exact le_trans (ih (min v w)) (min_le_left v w)

theorem foldl_min_mem (vs : List Rat) (v : Rat) : vs.foldl min v ∈ v :: vs := by
  induction vs generalizing v with
  | nil => simp
  | cons w ws ih =>
    rw [List.foldl_cons]
    rcases List.mem_cons.mp (ih (min v w)) with h | h
    · rcases min_choice v w with hm | hm
      · rw [h, hm]; exact List.mem_cons_self _ _
      · rw [h, hm]; exact List.mem_cons_of_mem _ (List.mem_cons_self _ _)
    · exact List.mem_cons_of_mem _ (List.mem_cons_of_mem _ h)

theorem foldl_min_ge (vs : List Rat) (v x : Rat) (hx : x ∈ v :: vs) :
    vs.foldl min v ≤ x := by
  induction vs generalizing v with
  | nil =>
    rw [List.mem_singleton] at hx
    exact le_of_eq hx.symm
  | cons w ws ih =>
    rw [List.foldl_cons]
    rcases List.mem_cons.mp hx with h | h
    · rw [h]; exact le_trans (foldl_min_le ws (min v w)) (min_le_left v w)
    · rcases List.mem_cons.mp h with h2 | h2
      · rw [h2]; exact le_trans (foldl_min_le ws (min v w)) (min_le_right v w)
      · exact ih (min v w) (List.mem_cons_of_mem _ h2)

/-! ### Characterisation of the summary entries -/

theorem mem_summaryOf {samples : List Sample} {m : Metric} {st : Stats} :
    (m, st) ∈ summaryOf samples ↔ statsAt samples m = some st := by
  constructor
  · intro h
    rw [summaryOf, List.mem_filterMap] at h
    obtain ⟨m1, _, hf⟩ := h
    cases hst : statsAt samples m1 with
    | none => rw [hst] at hf; simp at hf
    | some st1 =>
      rw [hst] at hf
      simp only [Option.map_some', Option.some.injEq, Prod.mk.injEq] at hf
      rw [← hf.1, hst, hf.2]
  · intro h
    rw [summaryOf, List.mem_filterMap]
    refine ⟨m, ?_, by rw [h]; rfl⟩
    cases m <;> simp [allMetrics]

theorem statsAt_spec {samples : List Sample} {m : Metric} {st : Stats}
    (h : statsAt samples m = some st) :
    presentVals samples m ≠ [] ∧
    st.average = (presentVals samples m).sum / ((presentVals samples m).length : Rat) ∧
    st.maximum ∈ presentVals samples m ∧
    (∀ v ∈ presentVals samples m, v ≤ st.maximum) ∧
    st.minimum ∈ presentVals samples m ∧
    (∀ v ∈ presentVals samples m, st.minimum ≤ v) := by
  unfold statsAt at h
  cases hp : presentVals samples m with
  | nil => rw [hp] at h; exact absurd h (by simp)
  | cons v vs =>
    rw [hp] at h
    simp only [Option.some.injEq] at h
    rw [← h]
    refine ⟨List.cons_ne_nil v vs, rfl, foldl_max_mem vs v, ?_, foldl_min_mem vs v, ?_⟩
    · intro x hx
      exact foldl_max_ge vs v x hx
    · intro x hx
      exact foldl_min_ge vs v x hx

/-- C3: the finalised summary aggregates each metric only over its present
values — the average is the sum of the present values over their count,
the maximum and minimum are attained present values bounding all of them
— and a metric with no present value in the whole run has no summary
entry; in particular, with GPU and VRAM absent in every sample, the
summary contains no `gpu` and no `vram` entry at all. -/
theorem claim_C3_summary_present_values_only (s : MonitorState)
    (hs : s.samples ≠ []) :
    (finaliseSummary s).summary_data = some (summaryOf s.samples) ∧
    (∀ m st, (m, st) ∈ summaryOf s.samples →
      presentVals s.samples m ≠ [] ∧
      st.average = (presentVals s.samples m).sum / ((presentVals s.samples m).length : Rat) ∧
      st.maximum ∈ presentVals s.samples m ∧
      (∀ v ∈ presentVals s.samples m, v ≤ st.maximum) ∧
      st.minimum ∈ presentVals s.samples m ∧
      (∀ v ∈ presentVals s.samples m, st.minimum ≤ v)) ∧
    (∀ m, presentVals s.samples m = [] → ∀ st, (m, st) ∉ summaryOf s.samples) ∧
    ((∀ x ∈ s.samples, x.gpu = none ∧ x.vram = none) →
      (∀ st, (Metric.gpu, st) ∉ summaryOf s.samples) ∧
      (∀ st, (Metric.vram, st) ∉ summaryOf s.samples)) := by
  have habsent : ∀ m, presentVals s.samples m = [] →
      ∀ st, (m, st) ∉ summaryOf s.samples := by
    intro m hp st hmem
    have := (statsAt_spec (mem_summaryOf.mp hmem)).1
    exact this hp
  refine ⟨(finalise_text_of_ne s hs).2, ?_, habsent, ?_⟩
  · intro m st hmem
    exact statsAt_spec (mem_summaryOf.mp hmem)
  · intro hgone
    constructor
    · intro st
      refine habsent Metric.gpu ?_ st
      rw [presentVals, List.filterMap_eq_nil_iff]
      intro a ha
      exact (hgone a ha).1
    · intro st
      refine habsent Metric.vram ?_ st
      rw [presentVals, List.filterMap_eq_nil_iff]
      intro a ha
      exact (hgone a ha).2

/-- A sample with both GPU fields absent, and a monitor that recorded only
such samples, used as the C3 witness. -/
def c3state : MonitorState :=
  { mkMonitor 1 [] false 60 60 with
    samples := [⟨30, 40, none, none⟩, ⟨50, 40, none, none⟩]
    sample_times := [0, 1] }

/-- Witness for C3: a two-sample run with GPU unavailable throughout has a
summary with no `gpu` entry. -/
theorem claim_C3_witness :
    c3state.samples ≠ [] ∧ ∀ st, (Metric.gpu, st) ∉ summaryOf c3state.samples :=
  ⟨by decide,
    ((claim_C3_summary_present_values_only c3state (by decide)).2.2.2
      (by decide)).1⟩

/-! ### Characterisation of one alert-evaluation pass -/

/-- The metric/value pairs of one `_check_alerts` pass that alert, judged
against the `_last_alerts` map as it stood on entry (on key-deduplicated
thresholds the sequential updates inside the pass cannot influence a later
key). -/
def firedList (cooldown now : Rat) (lastA vals : Metric → Option Rat)
    (ts : List (Metric × Rat)) : List (Metric × Rat) :=
  ts.filterMap fun p =>
    match vals p.1 with
    | none => none
    | some v =>
      if p.2 ≤ v then
        if fires cooldown now (lastA p.1) then some (p.1, v) else none
      else none

theorem firedList_congr (cooldown now : Rat) {lastA lastB vals : Metric → Option Rat}
    {ts : List (Metric × Rat)} (h : ∀ p ∈ ts, lastA p.1 = lastB p.1) :
    firedList cooldown now lastA vals ts = firedList cooldown now lastB vals ts := by
  unfold firedList
  exact List.filterMap_congr fun p hp => by rw [h p hp]

theorem checkAlertsGo_lastA_stable (cooldown now : Rat) (wall : String)
    (vals : Metric → Option Rat) (raises : Metric → Bool) :
    ∀ (ts : List (Metric × Rat)) (c : AlertCtx) (k : Metric),
      k ∉ ts.map Prod.fst →
      (checkAlertsGo cooldown now wall vals raises ts c).lastA k = c.lastA k := by
  intro ts
  induction ts with
  | nil => intro c k _; rfl
  | cons p rest ih =>
    intro c k hk
    obtain ⟨key, threshold⟩ := p
    rw [List.map_cons, List.mem_cons] at hk
    push_neg at hk
    cases hv : vals key with
    | none => simp only [checkAlertsGo, hv]; exact ih c k hk.2
    | some v =>
      by_cases hth : threshold ≤ v
      · by_cases hf : fires cooldown now (c.lastA key) = true
        · simp only [checkAlertsGo, hv, if_pos hth, if_pos hf]
          rw [ih _ k hk.2]
          simp only [updateLA]
          rw [if_neg hk.1]
        · simp only [checkAlertsGo, hv, if_pos hth, if_neg hf]
          exact ih c k hk.2
      · simp only [checkAlertsGo, hv, if_neg hth]
        exact ih c k hk.2

theorem checkAlertsGo_eq (cooldown now : Rat) (wall : String)
    (vals : Metric → Option Rat) (raises : Metric → Bool) :
    ∀ (ts : List (Metric × Rat)) (c : AlertCtx), (ts.map Prod.fst).Nodup →
      (checkAlertsGo cooldown now wall vals raises ts c).history
        = c.history ++ (firedList cooldown now c.lastA vals ts).map (fun q => (wall, q.1, q.2)) ∧
      (checkAlertsGo cooldown now wall vals raises ts c).calls
        = c.calls ++ firedList cooldown now c.lastA vals ts ∧
      (checkAlertsGo cooldown now wall vals raises ts c).times
        = c.times ++ (firedList cooldown now c.lastA vals ts).map (fun q => (q.1, now)) ∧
      ∀ k, (checkAlertsGo cooldown now wall vals raises ts c).lastA k
        = if (firedList cooldown now c.lastA vals ts).any (fun q => decide (q.1 = k)) then some now
          else c.lastA k := by
  intro ts
  induction ts with
  | nil =>
    intro c _
    refine ⟨by simp [checkAlertsGo, firedList], by simp [checkAlertsGo, firedList],
      by simp [checkAlertsGo, firedList], fun k => by simp [checkAlertsGo, firedList]⟩
  | cons p rest ih =>
    intro c hnd
    obtain ⟨key, threshold⟩ := p
    rw [List.map_cons, List.nodup_cons] at hnd
    obtain ⟨hknotin, hndrest⟩ := hnd
    cases hv : vals key with
    | none =>
      have hfl : firedList cooldown now c.lastA vals ((key, threshold) :: rest)
          = firedList cooldown now c.lastA vals rest := by
        unfold firedList
        rw [List.filterMap_cons]
        simp only [hv]
      simp only [checkAlertsGo, hv]
      rw [hfl]
      exact ih c hndrest
    | some v =>
      by_cases hth : threshold ≤ v
      · by_cases hf : fires cooldown now (c.lastA key) = true
        · -- the firing branch
          have hfl : firedList cooldown now c.lastA vals ((key, threshold) :: rest)
              = (key, v) :: firedList cooldown now c.lastA vals rest := by
            unfold firedList
            rw [List.filterMap_cons]
            simp only [hv, if_pos hth, if_pos hf]
          simp only [checkAlertsGo, hv, if_pos hth, if_pos hf]
          rw [hfl]
          set c1 : AlertCtx :=
            { lastA := updateLA c.lastA key now
              history := c.history ++ [(wall, key, v)]
              calls := c.calls ++ [(key, v)]
              times := c.times ++ [(key, now)] } with hc1
          have hagree : ∀ p ∈ rest, c1.lastA p.1 = c.lastA p.1 := by
            intro p hp
            have hpm : p.1 ∈ List.map Prod.fst rest := List.mem_map_of_mem Prod.fst hp
            have hne : p.1 ≠ key := by
              intro hc
              rw [hc] at hpm
              exact hknotin hpm
            simp only [hc1, updateLA]
            rw [if_neg hne]
          have hcongr := @firedList_congr cooldown now c1.lastA c.lastA vals rest hagree
          obtain ⟨ihh, ihc, iht, ihl⟩ := ih c1 hndrest
          rw [hcongr] at ihh ihc iht ihl
          refine ⟨?_, ?_, ?_, ?_⟩
          · rw [ihh, hc1]
            simp [List.append_assoc]
          · rw [ihc, hc1]
            simp [List.append_assoc]
          · rw [iht, hc1]
            simp [List.append_assoc]
          · intro k
            rw [ihl k]
            by_cases hk : key = k
            · subst hk
              simp [updateLA]
            · have hd : (decide ((key, v).1 = k)) = false := by
                simp only [decide_eq_false_iff_not]
                exact hk
              rw [List.any_cons, hd, Bool.false_or]
              by_cases hany :
                  (firedList cooldown now c.lastA vals rest).any (fun q => decide (q.1 = k)) = true
              · rw [hany]; simp
              · rw [Bool.not_eq_true] at hany
                rw [hany]
                simp only [if_neg, Bool.false_eq_true, not_false_eq_true]
                simp only [hc1, updateLA]
                rw [if_neg (fun hc => hk hc.symm)]
        · have hfl : firedList cooldown now c.lastA vals ((key, threshold) :: rest)
              = firedList cooldown now c.lastA vals rest := by
            unfold firedList
            rw [List.filterMap_cons]
            simp only [hv, if_pos hth, if_neg hf]
          simp only [checkAlertsGo, hv, if_pos hth, if_neg hf]
          rw [hfl]
          exact ih c hndrest
      · have hfl : firedList cooldown now c.lastA vals ((key, threshold) :: rest)
            = firedList cooldown now c.lastA vals rest := by
          unfold firedList
          rw [List.filterMap_cons]
          simp only [hv, if_neg hth]
        simp only [checkAlertsGo, hv, if_neg hth]
        rw [hfl]
        exact ih c hndrest

/-! ### The cooldown-separation invariant -/

theorem fires_some_iff (cooldown now last : Rat) :
    fires cooldown now (some last) = true ↔ cooldown ≤ now - last := by
  simp [fires, not_lt]

/-- The monotonic instants at which alerts for one metric were emitted, in
emission order. -/
def timesFor (k : Metric) (l : List (Metric × Rat)) : List Rat :=
  l.filterMap fun q => if q.1 = k then some q.2 else none

theorem timesFor_append (k : Metric) (l1 l2 : List (Metric × Rat)) :
    timesFor k (l1 ++ l2) = timesFor k l1 ++ timesFor k l2 :=
  List.filterMap_append l1 l2 _

/-- The invariant tying `_last_alerts` to the emission instants: the map
holds exactly the last emission instant of each metric, and consecutive
emission instants of one metric are at least one cooldown apart. -/
def AlertInv (cooldown : Rat) (lastA : Metric → Option Rat)
    (times : List (Metric × Rat)) : Prop :=
  ∀ k, lastA k = (timesFor k times).getLast? ∧
    List.Chain' (fun a b => cooldown ≤ b - a) (timesFor k times)

theorem checkAlertsGo_inv (cooldown now : Rat) (wall : String)
    (vals : Metric → Option Rat) (raises : Metric → Bool) :
    ∀ (ts : List (Metric × Rat)) (c : AlertCtx),
      AlertInv cooldown c.lastA c.times →
      AlertInv cooldown (checkAlertsGo cooldown now wall vals raises ts c).lastA
        (checkAlertsGo cooldown now wall vals raises ts c).times := by
  intro ts
  induction ts with
  | nil => intro c h; exact h
  | cons p rest ih =>
    intro c hinv
    obtain ⟨key, threshold⟩ := p
    cases hv : vals key with
    | none => simp only [checkAlertsGo, hv]; exact ih c hinv
    | some v =>
      by_cases hth : threshold ≤ v
      · by_cases hf : fires cooldown now (c.lastA key) = true
        · simp only [checkAlertsGo, hv, if_pos hth, if_pos hf]
          refine ih _ ?_
          intro k
          obtain ⟨hlast, hchain⟩ := hinv k
          by_cases hk : k = key
          · subst hk
            have htf : timesFor k (c.times ++ [(k, now)]) = timesFor k c.times ++ [now] := by
              rw [timesFor_append]
              simp [timesFor]
            constructor
            · rw [htf, List.getLast?_concat]
              simp [updateLA]
            · rw [htf]
              rw [List.chain'_append]
              refine ⟨hchain, List.chain'_singleton now, ?_⟩
              intro x hx y hy
              rw [List.head?_cons, Option.mem_some_iff] at hy
              subst hy
              rw [← hlast, Option.mem_def] at hx
              rw [hx] at hf
              exact (fires_some_iff cooldown now x).mp hf
          · have hk2 : key ≠ k := fun hx => hk hx.symm
            have htf : timesFor k (c.times ++ [(key, now)]) = timesFor k c.times := by
              rw [timesFor_append]
              simp [timesFor, hk2]
            constructor
            · simp only [updateLA, if_neg hk, htf]
              exact hlast
            · rw [htf]
              exact hchain
        · simp only [checkAlertsGo, hv, if_pos hth, if_neg hf]
          exact ih c hinv
      · simp only [checkAlertsGo, hv, if_neg hth]
        exact ih c hinv

theorem checkAlerts_inv (e : TickEnv) (s : MonitorState)
    (h : AlertInv s.alert_cooldown s.last_alerts s.alert_times) :
    AlertInv s.alert_cooldown (checkAlerts e s).last_alerts
      (checkAlerts e s).alert_times := by
  unfold checkAlerts
  split
  · exact h
  · exact checkAlertsGo_inv s.alert_cooldown e.now e.wall (tickVals e)
      e.alertRaises s.alert_thresholds ⟨s.last_alerts, s.alert_history, s.alert_calls, s.alert_times⟩ h

theorem checkAlerts_config (e : TickEnv) (s : MonitorState) :
    (checkAlerts e s).alert_cooldown = s.alert_cooldown ∧
    (checkAlerts e s).alert_thresholds = s.alert_thresholds ∧
    (checkAlerts e s).alert_callback = s.alert_callback ∧
    (checkAlerts e s).finalise_count = s.finalise_count ∧
    (checkAlerts e s).summary_text = s.summary_text ∧
    (checkAlerts e s).summary_data = s.summary_data ∧
    (checkAlerts e s).samples = s.samples ∧
    (checkAlerts e s).sample_times = s.sample_times := by
  unfold checkAlerts
  split <;> simp

theorem tick_config (e : TickEnv) (s : MonitorState) :
    (tick e s).1.alert_cooldown = s.alert_cooldown ∧
    (tick e s).1.alert_thresholds = s.alert_thresholds ∧
    (tick e s).1.alert_callback = s.alert_callback ∧
    (tick e s).1.finalise_count = s.finalise_count ∧
    (tick e s).1.summary_text = s.summary_text ∧
    (tick e s).1.summary_data = s.summary_data := by
  unfold tick
  by_cases hu : e.updateRaises
  · simp [hu]
  · simp only [hu, Bool.false_eq_true, if_neg, not_false_eq_true]
    have hc := checkAlerts_config e
      { s with
        samples := s.samples ++ [{ cpu := e.cpu, ram := e.ram, gpu := e.gpu, vram := e.vram }]
        sample_times := s.sample_times ++ [e.now]
        update_calls := s.update_calls ++ [(e.cpu, e.gpu, e.vram, e.ram)] }
    simp only at hc
    simp [hc.1, hc.2.1, hc.2.2.1, hc.2.2.2.1, hc.2.2.2.2.1, hc.2.2.2.2.2.1]

theorem tick_inv (e : TickEnv) (s : MonitorState)
    (h : AlertInv s.alert_cooldown s.last_alerts s.alert_times) :
    AlertInv s.alert_cooldown (tick e s).1.last_alerts (tick e s).1.alert_times := by
  unfold tick
  by_cases hu : e.updateRaises
  · simp only [hu, if_pos]
    exact h
  · simp only [hu, Bool.false_eq_true, if_neg, not_false_eq_true]
    have := checkAlerts_inv e
      { s with
        samples := s.samples ++ [{ cpu := e.cpu, ram := e.ram, gpu := e.gpu, vram := e.vram }]
        sample_times := s.sample_times ++ [e.now]
        update_calls := s.update_calls ++ [(e.cpu, e.gpu, e.vram, e.ram)] } h
    simpa using this

theorem runLoop_inv (env : List TickEnv) :
    ∀ s : MonitorState,
      AlertInv s.alert_cooldown s.last_alerts s.alert_times →
      AlertInv s.alert_cooldown (runLoop env s).1.last_alerts
        (runLoop env s).1.alert_times := by
  induction env with
  | nil => intro s h; exact h
  | cons e rest ih =>
    intro s h
    rw [runLoop]
    by_cases hstop : e.stop
    · rw [if_pos hstop]; exact h
    · rw [if_neg hstop]
      by_cases hpause : e.pause
      · rw [if_pos hpause]
        exact ih { s with sleeps := s.sleeps + 1 } h
      · rw [if_neg hpause]
        rcases htick : tick e s with ⟨s1, err⟩
        have hinv1 : AlertInv s.alert_cooldown s1.last_alerts s1.alert_times := by
          have := tick_inv e s h
          rw [htick] at this
          exact this
        have hcool : s1.alert_cooldown = s.alert_cooldown := by
          have := (tick_config e s).1
          rw [htick] at this
          exact this
        cases err with
        | none =>
          have := ih s1 (by rw [hcool]; exact hinv1)
          rw [hcool] at this
          exact this
        | some e2 => exact hinv1

/-! ### Emission characterisation at the `_check_alerts` level -/

theorem nodup_keys_eq {ts : List (Metric × Rat)}
    (hnd : (ts.map Prod.fst).Nodup) {k : Metric} {a b : Rat}
    (ha : (k, a) ∈ ts) (hb : (k, b) ∈ ts) : a = b := by
  induction ts with
  | nil => exact absurd ha (List.not_mem_nil _)
  | cons p rest ih =>
    rw [List.map_cons, List.nodup_cons] at hnd
    rcases List.mem_cons.mp ha with ha1 | ha1
    · rcases List.mem_cons.mp hb with hb1 | hb1
      · rw [← ha1] at hb1
        exact (Prod.mk.injEq _ _ _ _ ▸ hb1.symm).2
      · exfalso
        apply hnd.1
        have hkm : k ∈ rest.map Prod.fst := List.mem_map_of_mem Prod.fst hb1
        rw [← ha1]
        exact hkm
    · rcases List.mem_cons.mp hb with hb1 | hb1
      · exfalso
        apply hnd.1
        have hkm : k ∈ rest.map Prod.fst := List.mem_map_of_mem Prod.fst ha1
        rw [← hb1]
        exact hkm
      · exact ih hnd.2 ha1 hb1

theorem mem_firedList {cooldown now : Rat} {lastA vals : Metric → Option Rat}
    {ts : List (Metric × Rat)} (hnd : (ts.map Prod.fst).Nodup)
    {k : Metric} {th : Rat} (hk : (k, th) ∈ ts) (v : Rat) :
    (k, v) ∈ firedList cooldown now lastA vals ts ↔
      vals k = some v ∧ th ≤ v ∧ fires cooldown now (lastA k) = true := by
  rw [firedList, List.mem_filterMap]
  constructor
  · rintro ⟨p, hp, hf⟩
    cases hv : vals p.1 with
    | none => rw [hv] at hf; exact absurd hf (by simp)
    | some w =>
      simp only [hv] at hf
      by_cases hth : p.2 ≤ w
      · rw [if_pos hth] at hf
        by_cases hfire : fires cooldown now (lastA p.1) = true
        · rw [if_pos hfire] at hf
          rw [Option.some.injEq, Prod.mk.injEq] at hf
          obtain ⟨hp1, hp2⟩ := hf
          subst hp1
          subst hp2
          have hpeq : p.2 = th := by
            have : p = (p.1, p.2) := rfl
            exact nodup_keys_eq hnd (this ▸ hp) hk
          rw [hpeq] at hth
          exact ⟨hv, hth, hfire⟩
        · rw [if_neg hfire] at hf
          exact absurd hf (by simp)
      · rw [if_neg hth] at hf
        exact absurd hf (by simp)
  · rintro ⟨hv, hth, hfire⟩
    refine ⟨(k, th), hk, ?_⟩
    simp [hv, hth, hfire]

theorem checkAlerts_run (e : TickEnv) (s : MonitorState)
    (hts : ¬s.alert_thresholds.isEmpty = true) (hcb : s.alert_callback = true)
    (hnd : (s.alert_thresholds.map Prod.fst).Nodup) :
    (checkAlerts e s).alert_history =
      s.alert_history ++
        (firedList s.alert_cooldown e.now s.last_alerts (tickVals e)
          s.alert_thresholds).map (fun q => (e.wall, q.1, q.2)) ∧
    (checkAlerts e s).alert_calls =
      s.alert_calls ++
        firedList s.alert_cooldown e.now s.last_alerts (tickVals e) s.alert_thresholds ∧
    (checkAlerts e s).alert_times =
      s.alert_times ++
        (firedList s.alert_cooldown e.now s.last_alerts (tickVals e)
          s.alert_thresholds).map (fun q => (q.1, e.now)) ∧
    ∀ k, (checkAlerts e s).last_alerts k =
      if (firedList s.alert_cooldown e.now s.last_alerts (tickVals e)
          s.alert_thresholds).any (fun q => decide (q.1 = k)) then some e.now
      else s.last_alerts k := by
  have hgo := checkAlertsGo_eq s.alert_cooldown e.now e.wall (tickVals e)
    e.alertRaises s.alert_thresholds
    ⟨s.last_alerts, s.alert_history, s.alert_calls, s.alert_times⟩ hnd
  unfold checkAlerts
  rw [if_neg (by simp [hts, hcb])]
  exact hgo

theorem finalise_alert_fields (s : MonitorState) :
    (finaliseSummary s).alert_times = s.alert_times ∧
    (finaliseSummary s).alert_calls = s.alert_calls ∧
    (finaliseSummary s).alert_cooldown = s.alert_cooldown ∧
    (finaliseSummary s).last_alerts = s.last_alerts := by
  unfold finaliseSummary
  cases hs : s.samples <;> simp [hs]

theorem chain_pairwise_of_trans {R : Rat → Rat → Prop}
    (tr : ∀ a b c, R a b → R b c → R a c) {l : List Rat}
    (h : List.Chain' R l) : List.Pairwise R l := by
  haveI : IsTrans Rat R := ⟨tr⟩
  exact List.chain'_iff_pairwise.mp h

theorem fires_iff (cooldown now : Rat) (lastA : Option Rat) :
    fires cooldown now lastA = true ↔
      (lastA = none ∨ ∃ last, lastA = some last ∧ cooldown ≤ now - last) := by
  cases lastA with
  | none => simp [fires]
  | some l => simp [fires_some_iff]

/-- C1: in one alert-evaluation pass of a monitor with a configured alert
callback, an alert event for a metric with configured threshold is emitted
if and only if the metric's value is present and at least the threshold,
and either no prior alert for that metric exists or at least one cooldown
has elapsed since it; consequently, over any whole run started with a
clean alert state, any two alert-emission instants of the same metric are
at least one cooldown apart — at most one alert per metric per cooldown
window. -/
theorem claim_C1_alert_iff_and_cooldown_window :
    (∀ (e : TickEnv) (s : MonitorState) (k : Metric) (th : Rat),
      s.alert_callback = true →
      (s.alert_thresholds.map Prod.fst).Nodup →
      (k, th) ∈ s.alert_thresholds →
      ((∃ v, (e.wall, k, v) ∈ emittedIn e s) ↔
        ∃ v, tickVals e k = some v ∧ th ≤ v ∧
          (s.last_alerts k = none ∨
            ∃ last, s.last_alerts k = some last ∧
              s.alert_cooldown ≤ e.now - last))) ∧
    (∀ (env : List TickEnv) (s : MonitorState),
      (∀ k, s.last_alerts k = none) → s.alert_times = [] →
      0 ≤ s.alert_cooldown →
      ∀ k, (timesFor k (runMonitor env s).1.alert_times).Pairwise
        (fun a b => s.alert_cooldown ≤ b - a)) := by
  constructor
  · intro e s k th hcb hnd hk
    have hts : ¬s.alert_thresholds.isEmpty = true := by
      cases hts0 : s.alert_thresholds with
      | nil => rw [hts0] at hk; exact absurd hk (List.not_mem_nil _)
      | cons a rest => simp [hts0]
    have hca := checkAlerts_run e s hts hcb hnd
    have hemit : emittedIn e s =
        (firedList s.alert_cooldown e.now s.last_alerts (tickVals e)
          s.alert_thresholds).map (fun q => (e.wall, q.1, q.2)) := by
      unfold emittedIn
      rw [hca.1, List.drop_left]
    constructor
    · rintro ⟨v, hv⟩
      rw [hemit, List.mem_map] at hv
      obtain ⟨q, hq, heq⟩ := hv
      rw [Prod.mk.injEq, Prod.mk.injEq] at heq
      have hqkv : q = (k, v) := by
        rw [Prod.ext_iff]
        exact ⟨heq.2.1, heq.2.2⟩
      rw [hqkv] at hq
      obtain ⟨hval, hth2, hfire⟩ := (mem_firedList hnd hk v).mp hq
      exact ⟨v, hval, hth2, (fires_iff _ _ _).mp hfire⟩
    · rintro ⟨v, hval, hth2, hdisj⟩
      have hfire : fires s.alert_cooldown e.now (s.last_alerts k) = true :=
        (fires_iff _ _ _).mpr hdisj
      have hmem := (mem_firedList hnd hk v).mpr ⟨hval, hth2, hfire⟩
      refine ⟨v, ?_⟩
      rw [hemit, List.mem_map]
      exact ⟨(k, v), hmem, rfl⟩
  · intro env s hla hat hc0 k
    have hinv0 : AlertInv s.alert_cooldown s.last_alerts s.alert_times := by
      intro k2
      rw [hat]
      exact ⟨hla k2, List.chain'_nil⟩
    have hinv := runLoop_inv env s hinv0
    have hfp := (finalise_alert_fields (runLoop env s).1).1
    have hchain := (hinv k).2
    simp only [runMonitor]
    rw [hfp]
    exact chain_pairwise_of_trans
      (fun a b c hab hbc => by linarith) hchain

/-- The monitor configuration of the C1 witness: a CPU threshold of 50 %,
an alert callback, cooldown 60. -/
def c1mon : MonitorState := mkMonitor 1 [(Metric.cpu, 50)] true 60 60

/-- The single tick of the C1 witness: CPU at 90 %. -/
def c1tick : TickEnv :=
  { stop := false, pause := false, cpu := 90, ram := 40, gpu := none,
    vram := none, now := 0, wall := "t0", updateRaises := false,
    alertRaises := fun _ => false }

/-- Witness for C1 at a concrete monitor and tick. -/
theorem claim_C1_witness :
    ((∃ v, (c1tick.wall, Metric.cpu, v) ∈ emittedIn c1tick c1mon) ↔
      ∃ v, tickVals c1tick Metric.cpu = some v ∧ (50 : Rat) ≤ v ∧
        (c1mon.last_alerts Metric.cpu = none ∨
          ∃ last, c1mon.last_alerts Metric.cpu = some last ∧
            c1mon.alert_cooldown ≤ c1tick.now - last)) ∧
    ∀ k, (timesFor k (runMonitor [c1tick] c1mon).1.alert_times).Pairwise
      (fun a b => c1mon.alert_cooldown ≤ b - a) :=
  ⟨claim_C1_alert_iff_and_cooldown_window.1 c1tick c1mon Metric.cpu 50 rfl
      (by decide) (by decide),
    claim_C1_alert_iff_and_cooldown_window.2 [c1tick] c1mon (fun _ => rfl)
      rfl (by decide)⟩

theorem emitted_of_fires (e : TickEnv) (s : MonitorState) {k : Metric} {th v : Rat}
    (hcb : s.alert_callback = true)
    (hnd : (s.alert_thresholds.map Prod.fst).Nodup)
    (hk : (k, th) ∈ s.alert_thresholds)
    (hv : tickVals e k = some v) (hth : th ≤ v)
    (hfire : fires s.alert_cooldown e.now (s.last_alerts k) = true) :
    (e.wall, k, v) ∈ emittedIn e s ∧
    (e.wall, k, v) ∈ (checkAlerts e s).alert_history ∧
    (k, v) ∈ (checkAlerts e s).alert_calls ∧
    (checkAlerts e s).last_alerts k = some e.now := by
  have hts : ¬s.alert_thresholds.isEmpty = true := by
    cases hts0 : s.alert_thresholds with
    | nil => rw [hts0] at hk; exact absurd hk (List.not_mem_nil _)
    | cons a rest => simp [hts0]
  have hca := checkAlerts_run e s hts hcb hnd
  have hmem := (mem_firedList hnd hk v).mpr ⟨hv, hth, hfire⟩
  refine ⟨?_, ?_, ?_, ?_⟩
  · unfold emittedIn
    rw [hca.1, List.drop_left, List.mem_map]
    exact ⟨(k, v), hmem, rfl⟩
  · rw [hca.1]
    refine List.mem_append_right _ ?_
    rw [List.mem_map]
    exact ⟨(k, v), hmem, rfl⟩
  · rw [hca.2.1]
    exact List.mem_append_right _ hmem
  · rw [hca.2.2.2 k, if_pos]
    exact List.any_eq_true.mpr ⟨(k, v), hmem, by simp⟩

/-- C8: with the monitor's alert cooldown at 0, every qualifying sample
(present value at least its configured threshold) emits an alert event,
and an immediately following qualifying sample — even with no intervening
time — emits again. -/
theorem claim_C8_zero_cooldown_always_alerts :
    ∀ (e : TickEnv) (s : MonitorState) (k : Metric) (th v : Rat),
      s.alert_cooldown = 0 →
      s.alert_callback = true →
      (s.alert_thresholds.map Prod.fst).Nodup →
      (k, th) ∈ s.alert_thresholds →
      tickVals e k = some v → th ≤ v →
      (∀ last, s.last_alerts k = some last → last ≤ e.now) →
      (e.wall, k, v) ∈ emittedIn e s ∧
      ∀ (e2 : TickEnv) (v2 : Rat), tickVals e2 k = some v2 → th ≤ v2 →
        e.now ≤ e2.now → (e2.wall, k, v2) ∈ emittedIn e2 (checkAlerts e s) := by
  intro e s k th v h0 hcb hnd hk hv hth hpast
  have hfire : fires s.alert_cooldown e.now (s.last_alerts k) = true := by
    cases hl : s.last_alerts k with
    | none => rfl
    | some last =>
      rw [fires_some_iff, h0]
      have := hpast last hl
      linarith
  have h1 := emitted_of_fires e s hcb hnd hk hv hth hfire
  refine ⟨h1.1, ?_⟩
  intro e2 v2 hv2 hth2 hle
  have hcfg := checkAlerts_config e s
  have hfire2 : fires (checkAlerts e s).alert_cooldown e2.now
      ((checkAlerts e s).last_alerts k) = true := by
    rw [h1.2.2.2, hcfg.1, h0, fires_some_iff]
    linarith
  exact (emitted_of_fires e2 (checkAlerts e s)
    (by rw [hcfg.2.2.1]; exact hcb)
    (by rw [hcfg.2.1]; exact hnd)
    (by rw [hcfg.2.1]; exact hk)
    hv2 hth2 hfire2).1

/-- The monitor configuration of the C8 witness: CPU threshold 20 %, alert
callback configured, cooldown 0. -/
def c8mon : MonitorState := mkMonitor 1 [(Metric.cpu, 20)] true 0 60

/-- First tick of the C8 witness: CPU at 25 %, instant 5. -/
def c8tickA : TickEnv :=
  { stop := false, pause := false, cpu := 25, ram := 40, gpu := none,
    vram := none, now := 5, wall := "tA", updateRaises := false,
    alertRaises := fun _ => false }

/-- Second tick of the C8 witness: CPU at 60 %, same instant 5. -/
def c8tickB : TickEnv :=
  { stop := false, pause := false, cpu := 60, ram := 40, gpu := none,
    vram := none, now := 5, wall := "tB", updateRaises := false,
    alertRaises := fun _ => false }

/-- Witness for C8: two consecutive qualifying samples with no intervening
time both emit under cooldown 0. -/
theorem claim_C8_witness :
    (c8tickA.wall, Metric.cpu, (25 : Rat)) ∈ emittedIn c8tickA c8mon ∧
    (c8tickB.wall, Metric.cpu, (60 : Rat)) ∈
      emittedIn c8tickB (checkAlerts c8tickA c8mon) := by
  have h := claim_C8_zero_cooldown_always_alerts c8tickA c8mon Metric.cpu 20 25
    (by decide) rfl (by decide) (by decide) rfl (by decide)
    (fun last hl => absurd hl (by simp [c8mon, mkMonitor]))
  exact ⟨h.1, h.2 c8tickB 60 rfl (by decide) (by decide)⟩

/-- C10: when a metric qualifies (threshold met and cooldown elapsed), the
alert event is recorded in the alert history — hence counted by the
`alerts_triggered` line — and the metric's last-alert instant is set to
the current tick's instant, with the callback invocation recorded as well,
even when the alert callback raises on that metric. -/
theorem claim_C10_event_recorded_despite_raising_callback :
    ∀ (e : TickEnv) (s : MonitorState) (k : Metric) (th v : Rat),
      s.alert_callback = true →
      (s.alert_thresholds.map Prod.fst).Nodup →
      (k, th) ∈ s.alert_thresholds →
      tickVals e k = some v → th ≤ v →
      fires s.alert_cooldown e.now (s.last_alerts k) = true →
      e.alertRaises k = true →
      (e.wall, k, v) ∈ (checkAlerts e s).alert_history ∧
      (checkAlerts e s).last_alerts k = some e.now ∧
      (k, v) ∈ (checkAlerts e s).alert_calls := by
  intro e s k th v hcb hnd hk hv hth hfire _hraise
  have h := emitted_of_fires e s hcb hnd hk hv hth hfire
  exact ⟨h.2.1, h.2.2.2, h.2.2.1⟩

/-- The tick of the C10 witness: CPU at 95 % with an alert callback that
raises on the CPU metric. -/
def c10tick : TickEnv :=
  { stop := false, pause := false, cpu := 95, ram := 40, gpu := none,
    vram := none, now := 3, wall := "tC", updateRaises := false,
    alertRaises := fun _ => true }

/-- Witness for C10: a raising callback does not keep the event out of the
history nor the last-alert map. -/
theorem claim_C10_witness :
    (c10tick.wall, Metric.cpu, (95 : Rat)) ∈
      (checkAlerts c10tick c1mon).alert_history ∧
    (checkAlerts c10tick c1mon).last_alerts Metric.cpu = some c10tick.now :=
  have h := claim_C10_event_recorded_despite_raising_callback c10tick c1mon
    Metric.cpu 50 95 rfl (by decide) (by decide) rfl (by decide) rfl rfl
  ⟨h.1, h.2.1⟩

/-! ### Alert-callback exceptions leave no trace -/

/-- The same schedule with every alert callback made non-raising. -/
def scrubAlertRaises (env : List TickEnv) : List TickEnv :=
  env.map fun e => { e with alertRaises := fun _ => false }

/-- The same schedule with every update callback made non-raising. -/
def scrubUpdateRaises (env : List TickEnv) : List TickEnv :=
  env.map fun e => { e with updateRaises := false }

theorem tickVals_set_raises (e : TickEnv) (r : Metric → Bool) :
    tickVals { e with alertRaises := r } = tickVals e := by
  funext m
  cases m <;> rfl

theorem checkAlertsGo_raises_irrel (cooldown now : Rat) (wall : String)
    (vals : Metric → Option Rat) (r1 r2 : Metric → Bool) :
    ∀ (ts : List (Metric × Rat)) (c : AlertCtx),
      checkAlertsGo cooldown now wall vals r1 ts c
        = checkAlertsGo cooldown now wall vals r2 ts c := by
  intro ts
  induction ts with
  | nil => intro c; rfl
  | cons p rest ih =>
    intro c
    obtain ⟨key, threshold⟩ := p
    cases hv : vals key with
    | none => simp only [checkAlertsGo, hv]; exact ih c
    | some v =>
      by_cases hth : threshold ≤ v
      · by_cases hf : fires cooldown now (c.lastA key) = true
        · simp only [checkAlertsGo, hv, if_pos hth, if_pos hf]
          exact ih _
        · simp only [checkAlertsGo, hv, if_pos hth, if_neg hf]
          exact ih c
      · simp only [checkAlertsGo, hv, if_neg hth]
        exact ih c

theorem checkAlerts_set_raises (e : TickEnv) (r : Metric → Bool)
    (s : MonitorState) :
    checkAlerts { e with alertRaises := r } s = checkAlerts e s := by
  unfold checkAlerts
  dsimp only
  rw [tickVals_set_raises]
  split
  · rfl
  · rw [checkAlertsGo_raises_irrel s.alert_cooldown e.now e.wall (tickVals e)
      r e.alertRaises]

theorem tick_set_raises (e : TickEnv) (r : Metric → Bool) (s : MonitorState) :
    tick { e with alertRaises := r } s = tick e s := by
  unfold tick
  dsimp only
  rw [checkAlerts_set_raises]

theorem runLoop_scrub_alert (env : List TickEnv) :
    ∀ s, runLoop (scrubAlertRaises env) s = runLoop env s := by
  induction env with
  | nil => intro s; rfl
  | cons e rest ih =>
    intro s
    rw [scrubAlertRaises, List.map_cons]
    rw [runLoop, runLoop]
    dsimp only
    by_cases hstop : e.stop
    · rw [if_pos hstop, if_pos hstop]
    · rw [if_neg hstop, if_neg hstop]
      by_cases hpause : e.pause
      · rw [if_pos hpause, if_pos hpause]
        exact ih _
      · rw [if_neg hpause, if_neg hpause]
        rw [tick_set_raises]
        rcases htick : tick e s with ⟨s1, err⟩
        cases err with
        | none => exact ih s1
        | some e2 => rfl

theorem runLoop_no_update_raises (env : List TickEnv) :
    ∀ s, (∀ e ∈ env, e.updateRaises = false) → (runLoop env s).2 = none := by
  induction env with
  | nil => intro s _; rfl
  | cons e rest ih =>
    intro s hall
    rw [runLoop]
    by_cases hstop : e.stop
    · rw [if_pos hstop]
    · rw [if_neg hstop]
      by_cases hpause : e.pause
      · rw [if_pos hpause]
        exact ih _ fun x hx => hall x (List.mem_cons_of_mem e hx)
      · rw [if_neg hpause]
        have hu : e.updateRaises = false := hall e (List.mem_cons_self e rest)
        rcases htick : tick e s with ⟨s1, err⟩
        have herr : err = none := by
          unfold tick at htick
          rw [hu] at htick
          simp only [Bool.false_eq_true, if_neg, not_false_eq_true] at htick
          exact (Prod.mk.injEq _ _ _ _ ▸ htick).2.symm ▸ rfl
        subst herr
        exact ih s1 fun x hx => hall x (List.mem_cons_of_mem e hx)

/-- C6: an exception raised by the alert callback is swallowed — the whole
run computes the identical state and outcome as with a never-raising alert
callback (evaluation of the remaining metrics and the loop continue
unaffected), and when the update callback never raises, no exception at
all propagates out of the loop, whatever the alert callbacks do. -/
theorem claim_C6_alert_callback_exception_swallowed :
    ∀ (env : List TickEnv) (s : MonitorState),
      runMonitor env s = runMonitor (scrubAlertRaises env) s ∧
      (runMonitor (scrubUpdateRaises env) s).2 = none := by
  intro env s
  constructor
  · unfold runMonitor
    rw [runLoop_scrub_alert env s]
  · unfold runMonitor
    exact runLoop_no_update_raises (scrubUpdateRaises env) s
      (by
        intro x hx
        rw [scrubUpdateRaises, List.mem_map] at hx
        obtain ⟨y, _, hy⟩ := hx
        rw [← hy])

/-! ### The loop body never touches the summary fields -/

theorem runLoop_summary_fields (env : List TickEnv) :
    ∀ s, (runLoop env s).1.finalise_count = s.finalise_count ∧
      (runLoop env s).1.summary_text = s.summary_text ∧
      (runLoop env s).1.summary_data = s.summary_data := by
  induction env with
  | nil => intro s; exact ⟨rfl, rfl, rfl⟩
  | cons e rest ih =>
    intro s
    rw [runLoop]
    by_cases hstop : e.stop
    · rw [if_pos hstop]; exact ⟨rfl, rfl, rfl⟩
    · rw [if_neg hstop]
      by_cases hpause : e.pause
      · rw [if_pos hpause]
        exact ih _
      · rw [if_neg hpause]
        rcases htick : tick e s with ⟨s1, err⟩
        have hcfg := tick_config e s
        rw [htick] at hcfg
        cases err with
        | none =>
          have := ih s1
          exact ⟨this.1.trans hcfg.2.2.2.1, this.2.1.trans hcfg.2.2.2.2.1,
            this.2.2.trans hcfg.2.2.2.2.2⟩
        | some e2 =>
          exact ⟨hcfg.2.2.2.1, hcfg.2.2.2.2.1, hcfg.2.2.2.2.2⟩

/-- C2: however the loop ends — stop signal, schedule exhaustion, or an
exception escaping a tick — finalisation runs exactly once over whatever
was collected; a run that collected zero samples produces no summary at
all (`summary_text` and `summary_data` stay absent), while a run with
samples gets its summary data computed from the collected samples. -/
theorem claim_C2_finalise_exactly_once_empty_run_no_summary :
    ∀ (env : List TickEnv) (s : MonitorState),
      s.finalise_count = 0 → s.summary_text = none → s.summary_data = none →
      (runMonitor env s).1.finalise_count = 1 ∧
      ((runMonitor env s).1.samples = [] →
        (runMonitor env s).1.summary_text = none ∧
        (runMonitor env s).1.summary_data = none) ∧
      ((runMonitor env s).1.samples ≠ [] →
        (runMonitor env s).1.summary_data =
          some (summaryOf (runMonitor env s).1.samples)) := by
  intro env s hc ht hd
  have hloop := runLoop_summary_fields env s
  have hsam := (finalise_preserves (runLoop env s).1).1
  refine ⟨?_, ?_, ?_⟩
  · simp only [runMonitor]
    rw [finalise_count_succ, hloop.1, hc]
  · intro hempty
    simp only [runMonitor] at hempty ⊢
    rw [hsam] at hempty
    have h := finalise_text_of_empty (runLoop env s).1 hempty
    rw [h.1, h.2, hloop.2.1, hloop.2.2]
    exact ⟨ht, hd⟩
  · intro hne
    simp only [runMonitor] at hne ⊢
    rw [hsam] at hne
    have h := finalise_text_of_ne (runLoop env s).1 hne
    rw [h.2, hsam]

/-- The monitor of the C2 and C5 witnesses: freshly constructed, no
thresholds, no callback. -/
def c2mon : MonitorState := mkMonitor 1 [] false 60 60

/-- The tick environment of the C2 witness: the stop signal is already set
when the first iteration checks it. -/
def c2tick : TickEnv :=
  { stop := true, pause := false, cpu := 0, ram := 0, gpu := none,
    vram := none, now := 0, wall := "t", updateRaises := false,
    alertRaises := fun _ => false }

/-- Witness for C2: stop set before any tick gives zero samples, one
finalisation, and no summary. -/
theorem claim_C2_witness :
    (runMonitor [c2tick] c2mon).1.finalise_count = 1 ∧
    (runMonitor [c2tick] c2mon).1.summary_text = none ∧
    (runMonitor [c2tick] c2mon).1.summary_data = none := by
  have h := claim_C2_finalise_exactly_once_empty_run_no_summary [c2tick] c2mon
    rfl rfl rfl
  have hs : (runMonitor [c2tick] c2mon).1.samples = [] := by decide
  exact ⟨h.1, (h.2.1 hs).1, (h.2.1 hs).2⟩

/-- C5: a loop iteration that sees the pause flag (and not the stop flag)
records no sample and no sample time, invokes neither the update callback
nor the alert callback, emits no alert, and only sleeps one tick interval
before re-checking — a fully paused schedule leaves everything unchanged
except one sleep per iteration. -/
theorem claim_C5_paused_iteration_only_sleeps :
    (∀ (e : TickEnv) (rest : List TickEnv) (s : MonitorState),
      e.stop = false → e.pause = true →
      runLoop (e :: rest) s = runLoop rest { s with sleeps := s.sleeps + 1 }) ∧
    (∀ (env : List TickEnv) (s : MonitorState),
      (∀ e ∈ env, e.stop = false ∧ e.pause = true) →
      (runLoop env s).1.samples = s.samples ∧
      (runLoop env s).1.sample_times = s.sample_times ∧
      (runLoop env s).1.update_calls = s.update_calls ∧
      (runLoop env s).1.alert_calls = s.alert_calls ∧
      (runLoop env s).1.alert_history = s.alert_history ∧
      (runLoop env s).1.sleeps = s.sleeps + env.length ∧
      (runLoop env s).2 = none) := by
  constructor
  · intro e rest s h1 h2
    rw [runLoop, if_neg (by rw [h1]; exact Bool.false_ne_true), if_pos h2]
  · intro env
    induction env with
    | nil =>
      intro s _
      exact ⟨rfl, rfl, rfl, rfl, rfl, rfl, rfl⟩
    | cons e rest ih =>
      intro s hall
      have he := hall e (List.mem_cons_self e rest)
      rw [runLoop, if_neg (by rw [he.1]; exact Bool.false_ne_true), if_pos he.2]
      have h := ih { s with sleeps := s.sleeps + 1 }
        (fun x hx => hall x (List.mem_cons_of_mem e hx))
      refine ⟨h.1, h.2.1, h.2.2.1, h.2.2.2.1, h.2.2.2.2.1, ?_, h.2.2.2.2.2.2⟩
      rw [h.2.2.2.2.2.1]
      simp only [List.length_cons]
      omega

/-- The tick of the C5 witness: pause set, stop clear. -/
def c5tick : TickEnv :=
  { stop := false, pause := true, cpu := 70, ram := 70, gpu := some 70,
    vram := some 70, now := 2, wall := "t", updateRaises := false,
    alertRaises := fun _ => false }

/-- Witness for C5: one paused iteration only sleeps. -/
theorem claim_C5_witness :
    runLoop [c5tick] c2mon = runLoop [] { c2mon with sleeps := c2mon.sleeps + 1 } ∧
    (runLoop [c5tick] c2mon).1.samples = c2mon.samples ∧
    (runLoop [c5tick] c2mon).1.sleeps = c2mon.sleeps + 1 :=
  have h := claim_C5_paused_iteration_only_sleeps.2 [c5tick] c2mon
    (fun _ hx => by
      rw [List.mem_singleton] at hx
      rw [hx]
      exact ⟨rfl, rfl⟩)
  ⟨claim_C5_paused_iteration_only_sleeps.1 c5tick [] c2mon rfl rfl,
    h.1, h.2.2.2.2.2.1⟩

/-! ### The trend window -/

theorem getLast_cons_eq_getLastD (t : Rat) (ts : List Rat) :
    (t :: ts).getLast (List.cons_ne_nil t ts) = ts.getLastD t := by
  induction ts generalizing t with
  | nil => rfl
  | cons u us ih =>
    rw [List.getLast_cons (List.cons_ne_nil u us), List.getLastD_cons]
    exact ih u

theorem filterMap_if_filter {α β : Type} (p : α → Prop) [DecidablePred p]
    (f : α → Option β) :
    ∀ l : List α, (l.filterMap fun a => if p a then f a else none)
      = (l.filter fun a => decide (p a)).filterMap f := by
  intro l
  induction l with
  | nil => rfl
  | cons a t ih =>
    cases hf : f a with
    | none =>
      by_cases h : p a <;>
        simp [List.filterMap_cons, List.filter_cons, h, hf, ih]
    | some b =>
      by_cases h : p a <;>
        simp [List.filterMap_cons, List.filter_cons, h, hf, ih]

theorem lookup_filterMap_not_mem (g : Metric → Option (Metric × Rat))
    (hg : ∀ x q, g x = some q → q.1 = x) (m : Metric) :
    ∀ ms : List Metric, m ∉ ms → lookupMetric m (ms.filterMap g) = none := by
  intro ms
  induction ms with
  | nil => intro _; rfl
  | cons x rest ih =>
    intro hm
    rw [List.mem_cons] at hm
    push_neg at hm
    cases hgx : g x with
    | none =>
      rw [List.filterMap_cons]
      simp only [hgx]
      exact ih hm.2
    | some q =>
      rw [List.filterMap_cons]
      simp only [hgx]
      unfold lookupMetric
      rw [List.find?_cons_of_neg]
      · exact ih hm.2
      · simp only [hg x q hgx, decide_eq_true_eq]
        exact fun hc => hm.1 hc.symm

theorem lookup_filterMap_keyed (g : Metric → Option (Metric × Rat))
    (hg : ∀ x q, g x = some q → q.1 = x) (m : Metric) :
    ∀ ms : List Metric, ms.Nodup → m ∈ ms →
      lookupMetric m (ms.filterMap g) = (g m).map fun q => q.2 := by
  intro ms
  induction ms with
  | nil => intro _ hm; exact absurd hm (List.not_mem_nil m)
  | cons x rest ih =>
    intro hnd hm
    rw [List.nodup_cons] at hnd
    rcases List.mem_cons.mp hm with hmx | hmr
    · subst hmx
      cases hgx : g m with
      | none =>
        rw [List.filterMap_cons]
        simp only [hgx, Option.map_none']
        exact lookup_filterMap_not_mem g hg m rest hnd.1
      | some q =>
        rw [List.filterMap_cons]
        simp only [hgx, Option.map_some']
        unfold lookupMetric
        rw [List.find?_cons_of_pos]
        · rfl
        · simp [hg m q hgx]
    · have hmne : m ≠ x := fun hc => hnd.1 (hc ▸ hmr)
      cases hgx : g x with
      | none =>
        rw [List.filterMap_cons]
        simp only [hgx]
        exact ih hnd.2 hmr
      | some q =>
        rw [List.filterMap_cons]
        simp only [hgx]
        unfold lookupMetric
        rw [List.find?_cons_of_neg]
        · exact ih hnd.2 hmr
        · simp only [hg x q hgx, decide_eq_true_eq]
          exact fun hc => hmne hc.symm

theorem lookupMetric_trendOf (samples : List Sample) (times : List Rat)
    (window : Rat) (m : Metric) :
    lookupMetric m (trendOf samples times window)
      = trendAt samples times window m := by
  rw [trendOf]
  rw [lookup_filterMap_keyed _ ?_ m allMetrics (by decide) (by cases m <;> decide)]
  · cases trendAt samples times window m <;> rfl
  · intro x q hx
    cases hq : trendAt samples times window x with
    | none => rw [hq] at hx; exact absurd hx (by simp)
    | some d =>
      rw [hq] at hx
      simp only [Option.map_some', Option.some.injEq] at hx
      rw [← hx]

theorem le_getLast_of_chain :
    ∀ (l : List Rat) (h : l ≠ []), List.Chain' (fun a b => a ≤ b) l →
      ∀ t ∈ l, t ≤ l.getLast h := by
  intro l
  induction l with
  | nil => intro h; exact absurd rfl h
  | cons a t ih =>
    intro _ hc x hx
    cases t with
    | nil =>
      rw [List.mem_singleton] at hx
      rw [hx]
      exact le_refl a
    | cons b u =>
      rw [List.chain'_cons] at hc
      rw [List.getLast_cons (List.cons_ne_nil b u)]
      rcases List.mem_cons.mp hx with hxa | hxm
      · rw [hxa]
        exact le_trans hc.1
          (ih (List.cons_ne_nil b u) hc.2 b (List.mem_cons_self b u))
      · exact ih (List.cons_ne_nil b u) hc.2 x hxm

/-- C7: the trend reported at finalisation for a metric is the last present
value minus the first present value among the samples of the trailing
window — the samples whose timestamp is at least the latest sample
timestamp minus the trend window — and is absent when the window holds no
present value for the metric; under a monotone clock the last sample
timestamp used as the window anchor is indeed the latest. -/
theorem claim_C7_trend_is_window_delta :
    ∀ (samples : List Sample) (times : List Rat) (window : Rat) (m : Metric),
      times ≠ [] →
      List.Chain' (fun a b => a ≤ b) times →
      (lookupMetric m (trendOf samples times window) =
        match ((samples.zip times).filter
            (fun q => decide (times.getLastD 0 - window ≤ q.2))).filterMap
            (fun q => q.1.get m) with
        | [] => none
        | v :: vs => some (vs.getLastD v - v)) ∧
      ∀ t ∈ times, t ≤ times.getLastD 0 := by
  intro samples times window m hne hmono
  have hlast : times.getLast hne = times.getLastD 0 := by
    cases times with
    | nil => exact absurd rfl hne
    | cons t ts =>
      rw [getLast_cons_eq_getLastD, List.getLastD_cons]
  constructor
  · rw [lookupMetric_trendOf]
    have hcut : cutoffOf times window = times.getLastD 0 - window := by
      cases times with
      | nil => exact absurd rfl hne
      | cons t ts =>
        rw [cutoffOf, List.getLastD_cons]
    rw [trendAt, windowValsOf, hcut]
    rw [filterMap_if_filter (fun q => times.getLastD 0 - window ≤ q.2)
      (fun q => q.1.get m) (samples.zip times)]
  · intro t ht
    rw [← hlast]
    exact le_getLast_of_chain times hne hmono t ht

/-- The sample list of the C7 witness: CPU climbing 10, 20, 30. -/
def c7samples : List Sample :=
  [⟨10, 40, none, none⟩, ⟨20, 40, none, none⟩, ⟨30, 40, none, none⟩]

/-- The sample times of the C7 witness. -/
def c7times : List Rat := [0, 50, 100]

/-- Witness for C7: with a 60-unit window over times 0/50/100, only the
last two samples are in-window and the CPU trend is 30 − 20 = 10. -/
theorem claim_C7_witness :
    lookupMetric Metric.cpu (trendOf c7samples c7times 60) = some 10 ∧
    ∀ t ∈ c7times, t ≤ c7times.getLastD 0 := by
  have h := claim_C7_trend_is_window_delta c7samples c7times 60 Metric.cpu
    (by decide)
    (by
      unfold c7times
      refine List.chain'_cons.mpr ⟨by norm_num, ?_⟩
      exact List.chain'_cons.mpr ⟨by norm_num, List.chain'_singleton _⟩)
  refine ⟨?_, h.2⟩
  rw [h.1]
  norm_num [c7samples, c7times, List.filter_cons, List.filterMap_cons, List.getLastD,
    List.getLast, Sample.get]

end ReadingRabbit
